import Mathlib

/-!
Verification of the Smart Contract Copilot rule engine.

The TypeScript sources (`src/utils/solidityAnalyzer.ts`,
`src/components/AuditPanel.tsx`, `src/App.tsx` and the file-import handler)
are shallowly embedded here.  JavaScript strings become `List Char`;
the handful of regular expressions used by the analyzers are embedded as
explicit scanners whose semantics are derived, case by case, from the
backtracking behaviour of the concrete pattern (each scanner carries a
comment explaining the derivation).
-/

set_option maxRecDepth 4000

namespace SCC

/-- Shorthand turning a string literal into the character list it denotes. -/
def S (s : String) : List Char := s.toList

/-- The ASCII whitespace characters matched by JavaScript's `\s` and removed
by `String.prototype.trim` (the non-ASCII space characters JS also accepts
never occur in the texts modelled here). -/
def isJsSpace (c : Char) : Bool :=
  c == ' ' || c == '\t' || c == '\n' || c == '\r' || c == '\x0b' || c == '\x0c'

/-- JavaScript's `\w` character class: ASCII letters, digits and underscore. -/
def isWordChar (c : Char) : Bool :=
  c.isAlphanum || c == '_'

/-- Whether an optional character (a neighbour of a regex word boundary;
`none` models the start or end of the string) is a word character. -/
def isWordCharOpt : Option Char → Bool
  | none => false
  | some c => isWordChar c

/-- `String.prototype.trim`: whitespace stripped from both ends. -/
def jsTrim (l : List Char) : List Char :=
  ((l.dropWhile isJsSpace).reverse.dropWhile isJsSpace).reverse

/-- `code.split('\n')`: the list of lines; never empty, and splitting the
empty string yields one empty line, exactly as in JavaScript. -/
def splitNL : List Char → List (List Char)
  | [] => [[]]
  | c :: t =>
    if c = '\n' then [] :: splitNL t
    else
      match splitNL t with
      | [] => [[c]]
      | l :: ls => (c :: l) :: ls

/-- `lines.join('\n')`. -/
def joinNL : List (List Char) → List Char
  | [] => []
  | [l] => l
  | l :: ls => l ++ '\n' :: joinNL ls

/-- Prefix test on character lists (`String.prototype.startsWith`). -/
def isPfx : List Char → List Char → Bool
  | [], _ => true
  | _ :: _, [] => false
  | a :: as, b :: bs => a == b && isPfx as bs

/-- Suffix test on character lists (`String.prototype.endsWith`). -/
def isSfx (n h : List Char) : Bool :=
  isPfx n.reverse h.reverse

/-- Substring test (`String.prototype.includes`). -/
def isSubstr : List Char → List Char → Bool
  | n, [] => isPfx n []
  | n, c :: t => isPfx n (c :: t) || isSubstr n t

/-- Helper for `indexOfSub`, carrying the index of the current suffix. -/
def indexOfSubAux (n : List Char) (h : List Char) (i : Int) : Int :=
  if isPfx n h then i
  else
    match h with
    | [] => -1
    | _ :: t => indexOfSubAux n t (i + 1)

/-- `String.prototype.indexOf`: index of the first occurrence, `-1` if none. -/
def indexOfSub (n h : List Char) : Int :=
  indexOfSubAux n h 0

/-- One step of `String.prototype.replace` with a non-global pattern: scan
left to right; at the first position where the matcher `f` returns
`some (matched, replacement)` splice in the replacement and stop.  `f` must
report the matched text so that the scanner knows how much input the match
consumed. -/
def replaceFirstBy (f : List Char → Option (List Char × List Char)) (l : List Char) :
    List Char :=
  match f l with
  | some (m, rep) => rep ++ l.drop m.length
  | none =>
    match l with
    | [] => []
    | c :: t => c :: replaceFirstBy f t

/-- Matcher for a fixed literal pattern with a fixed replacement (JavaScript
`replace` called with a plain string replaces the first occurrence only). -/
def litPat (a b : String) (l : List Char) : Option (List Char × List Char) :=
  if isPfx (S a) l then some (S a, S b) else none

/-- Helper for `replaceAllLit`, structurally recursive on a fuel argument
(every step consumes at least one input character, so fuel equal to the
input's length is never exhausted and the zero-fuel branch is unreachable). -/
def replaceAllLitFuel (n r : List Char) : Nat → List Char → List Char
  | _, [] => []
  | 0, l => l
  | fuel + 1, c :: t =>
    if isPfx n (c :: t) && !n.isEmpty then
      r ++ replaceAllLitFuel n r fuel (t.drop (n.length - 1))
    else c :: replaceAllLitFuel n r fuel t

/-- `String.prototype.replace` with a global literal pattern: every
non-overlapping occurrence replaced, scanning left to right. -/
def replaceAllLit (n r l : List Char) : List Char :=
  replaceAllLitFuel n r l.length l

/-- Helper for `replaceNowAll`, structurally recursive on a fuel argument
(never exhausted when the fuel starts at the input's length).  `prev` is the
character before the current scan position (`none` at the start); after a
replacement the scan resumes after the matched text, whose last character
`'w'` becomes the new boundary context, exactly as the regex engine's
`lastIndex` does. -/
def replaceNowFuel : Option Char → Nat → List Char → List Char
  | _, _, [] => []
  | _, 0, l => l
  | prev, fuel + 1, c :: t =>
    if isPfx (S "now") (c :: t) && !isWordCharOpt prev && !isWordCharOpt (t.drop 2).head? then
      S "block.timestamp" ++ replaceNowFuel (some 'w') fuel (t.drop 2)
    else c :: replaceNowFuel (some c) fuel t

/-- `line.replace(/\bnow\b/g, 'block.timestamp')`: every occurrence of the
word `now` delimited by word boundaries is replaced. -/
def replaceNowAll (l : List Char) : List Char :=
  replaceNowFuel none l.length l

/-- Scan a string left to right and return the first position's result where
the matcher succeeds (the embedding of an unanchored regex search). -/
def scanFirst {α : Type} (f : List Char → Option α) : List Char → Option α
  | [] => f []
  | c :: t =>
    match f (c :: t) with
    | some r => some r
    | none => scanFirst f t

/-- First keyword of `kws` that is a prefix of `l` (the embedding of a regex
alternation of literal words tried in order; the keywords used here are
pairwise non-prefix-comparable, so at most one can match at a position). -/
def pickKw : List String → List Char → Option (List Char)
  | [], _ => none
  | k :: ks, l => if isPfx (S k) l then some (S k) else pickKw ks l

/-- Matcher for `/(public|private|internal|external)\s+(view|pure|payable)/`
at the current position, returning `(matched text, "$2 $1")`.  Since the
mutability keywords start with non-whitespace characters, the greedy `\s+`
must consume the whole whitespace run; so the matched text is the visibility
keyword, the full whitespace run, then the mutability keyword. -/
def visMatchAt (l : List Char) : Option (List Char × List Char) :=
  match pickKw ["public", "private", "internal", "external"] l with
  | none => none
  | some kw =>
    let r := l.drop kw.length
    let ws := r.takeWhile isJsSpace
    if ws.isEmpty then none
    else
      match pickKw ["view", "pure", "payable"] (r.drop ws.length) with
      | none => none
      | some mk => some (kw ++ ws ++ mk, mk ++ ' ' :: kw)

/-- Matcher for `/pragma solidity [^;]+;/` at the current position, with the
replacement `'pragma solidity ^0.8.19;'`.  The greedy `[^;]+` cannot cross a
semicolon, so it is the maximal run of non-`;` characters after the literal,
and must be non-empty and followed by `;`. -/
def pragmaFixAt (l : List Char) : Option (List Char × List Char) :=
  if isPfx (S "pragma solidity ") l then
    let r := l.drop 16
    let run := r.takeWhile (fun c => c != ';')
    if run.isEmpty then none
    else
      match r.drop run.length with
      | ';' :: _ => some (S "pragma solidity " ++ run ++ [';'], S "pragma solidity ^0.8.19;")
      | _ => none
  else none

/-- Severity of a finding of the syntax analyzer. -/
inductive Severity
  | error
  | warning
deriving DecidableEq

/-- One finding of `SolidityAnalyzer.analyzeSyntax` (interface `SyntaxError`
of `solidityAnalyzer.ts`). -/
structure SyntaxFinding where
  line : Nat
  column : Int
  message : List Char
  severity : Severity
  fix : Option (List Char)
deriving DecidableEq

def msgMissingSemi : List Char := S "Missing semicolon"

def msgVisOrder : List Char :=
  S "Incorrect function modifier order. State mutability should come after visibility"

def msgNow : List Char := S "'now' is deprecated. Use 'block.timestamp' instead"

def msgTxOrigin : List Char :=
  S "Avoid using tx.origin for authorization. Use msg.sender instead"

def msgSpdx : List Char := S "Missing SPDX license identifier"

def msgPragma : List Char :=
  S "Consider using Solidity ^0.8.0 for better security and gas optimization"

/-- The firing condition of the missing-semicolon rule on the trimmed line
(the conjunction of lines 35-47 of `solidityAnalyzer.ts`); note that the five
keyword tests are substring tests, not prefix tests. -/
def missingSemiCond (trimmed : List Char) : Bool :=
  !trimmed.isEmpty
    && !isPfx (S "//") trimmed && !isPfx (S "/*") trimmed && !isPfx (S "*") trimmed
    && !isSfx [';'] trimmed && !isSfx ['{'] trimmed && !isSfx ['}'] trimmed
    && !isSubstr (S "pragma") trimmed && !isSubstr (S "import") trimmed
    && !isSubstr (S "contract") trimmed && !isSubstr (S "interface") trimmed
    && !isSubstr (S "library") trimmed
    && decide (0 < trimmed.length)

/-- The missing-semicolon rule of `analyzeSyntax` (lines 34-55 of
`solidityAnalyzer.ts`). -/
def missingSemiCheck (n : Nat) (line trimmed : List Char) : List SyntaxFinding :=
  if missingSemiCond trimmed then
    [⟨n, (line.length : Int), msgMissingSemi, .error, some (line ++ [';'])⟩]
  else []

/-- The modifier-order rule of `analyzeSyntax` (lines 57-70). -/
def visCheck (n : Nat) (line trimmed : List Char) : List SyntaxFinding :=
  match scanFirst visMatchAt trimmed with
  | some m => [⟨n, indexOfSub m.1 line, msgVisOrder, .warning,
      some (replaceFirstBy visMatchAt line)⟩]
  | none => []

/-- The deprecated-`now` rule of `analyzeSyntax` (lines 72-81): note that the
firing condition is a plain substring test while the fix replaces only
word-delimited occurrences. -/
def nowCheck (n : Nat) (line trimmed : List Char) : List SyntaxFinding :=
  if isSubstr (S "now") trimmed then
    [⟨n, indexOfSub (S "now") line, msgNow, .warning, some (replaceNowAll line)⟩]
  else []

/-- The `tx.origin` rule of `analyzeSyntax` (lines 83-92). -/
def txCheck (n : Nat) (line trimmed : List Char) : List SyntaxFinding :=
  if isSubstr (S "tx.origin") trimmed then
    [⟨n, indexOfSub (S "tx.origin") line, msgTxOrigin, .error,
      some (replaceAllLit (S "tx.origin") (S "msg.sender") line)⟩]
  else []

/-- The missing-SPDX rule of `analyzeSyntax` (lines 94-103): it only ever
looks at line 1. -/
def spdxCheck (n : Nat) (line trimmed : List Char) : List SyntaxFinding :=
  if n == 1 && !isSubstr (S "SPDX-License-Identifier") trimmed then
    [⟨1, 0, msgSpdx, .warning, some (S "// SPDX-License-Identifier: MIT" ++ '\n' :: line)⟩]
  else []

/-- The pragma-version rule of `analyzeSyntax` (lines 105-114). -/
def pragmaCheck (n : Nat) (line trimmed : List Char) : List SyntaxFinding :=
  if isSubstr (S "pragma solidity") trimmed && !isSubstr (S "^0.8") trimmed then
    [⟨n, 0, msgPragma, .warning, some (replaceFirstBy pragmaFixAt line)⟩]
  else []

/-- All findings the `forEach` body of `analyzeSyntax` pushes for one line,
in push order. -/
def syntaxLineChecks (n : Nat) (line : List Char) : List SyntaxFinding :=
  missingSemiCheck n line (jsTrim line) ++ visCheck n line (jsTrim line)
    ++ nowCheck n line (jsTrim line) ++ txCheck n line (jsTrim line)
    ++ spdxCheck n line (jsTrim line) ++ pragmaCheck n line (jsTrim line)

/-- Pair each line with its 1-based line number, starting at `n`. -/
def linesEnum (n : Nat) : List (List Char) → List (Nat × List Char)
  | [] => []
  | l :: t => (n, l) :: linesEnum (n + 1) t

/-- Concatenation of the images of `f` (the push-into-accumulator loop). -/
def catMap {α β : Type} (f : α → List β) : List α → List β
  | [] => []
  | a :: t => f a ++ catMap f t

/-- `SolidityAnalyzer.analyzeSyntax` (lines 26-118 of `solidityAnalyzer.ts`). -/
def analyzeSyntax (code : List Char) : List SyntaxFinding :=
  catMap (fun p => syntaxLineChecks p.1 p.2) (linesEnum 1 (splitNL code))

/-- The `type` tag of a gas-optimization finding. -/
inductive GasType
  | storage
  | computation
  | memory
  | externalCalls
deriving DecidableEq

/-- One finding of `SolidityAnalyzer.analyzeGasOptimization` (interface
`GasOptimization` of `solidityAnalyzer.ts`). -/
structure GasFinding where
  line : Nat
  type : GasType
  issue : List Char
  suggestion : List Char
  currentCode : List Char
  optimizedCode : List Char
  gasSavings : Nat
deriving DecidableEq

/-- Matcher for `/require\(([^,]+),\s*"([^"]+)"\)/` at the current position
(the capture-free variant used for the test has the same matches).  Each
bounded class `[^x]+` cannot cross its excluded character, so it is the
maximal non-empty run up to the next occurrence of that character; the
greedy `\s*` must end at the quote because a shorter run would leave a
whitespace character where `"` is required.  Returns the matched text and
the replacement `'if (!($1)) revert CustomError()'`. -/
def requirePat (l : List Char) : Option (List Char × List Char) :=
  if isPfx (S "require(") l then
    let r := l.drop 8
    let a := r.takeWhile (fun c => c != ',')
    if a.isEmpty then none
    else
      match r.drop a.length with
      | ',' :: r2 =>
        let ws := r2.takeWhile isJsSpace
        match r2.drop ws.length with
        | '"' :: r3 =>
          let b := r3.takeWhile (fun c => c != '"')
          if b.isEmpty then none
          else
            match r3.drop b.length with
            | '"' :: ')' :: _ =>
              some (S "require(" ++ a ++ ',' :: ws ++ '"' :: b ++ S "\")",
                S "if (!(" ++ a ++ S ")) revert CustomError()")
            | _ => none
        | _ => none
      | _ => none
  else none

/-- Matcher for `/for\s*\([^;]*;\s*[^<]*<\s*([^.]+)\.length/` at the current
position.  After `for`, the greedy `\s*` must end at `(`; `[^;]*` is the run
up to the first `;`; `\s*[^<]*` together absorb everything up to the first
`<` (whitespace is not `<`); after `<` the greedy `\s*` takes the whitespace
run and `([^.]+)` the run up to the first `.`, which must start `.length` —
when that run is empty the engine backtracks exactly one whitespace
character out of `\s*` into `[^.]+`, so the capture becomes that single
character.  Returns the matched text and the replacement
`'uint256 length = $1.length;\n        for (uint256 i = 0; i < length'`. -/
def forPat (l : List Char) : Option (List Char × List Char) :=
  if isPfx (S "for") l then
    let r := l.drop 3
    let ws1 := r.takeWhile isJsSpace
    match r.drop ws1.length with
    | '(' :: r2 =>
      let a := r2.takeWhile (fun c => c != ';')
      match r2.drop a.length with
      | ';' :: r3 =>
        let b := r3.takeWhile (fun c => c != '<')
        match r3.drop b.length with
        | '<' :: r4 =>
          let ws2 := r4.takeWhile isJsSpace
          let cap := (r4.drop ws2.length).takeWhile (fun c => c != '.')
          if !cap.isEmpty && isPfx (S ".length") (r4.drop (ws2.length + cap.length)) then
            some (S "for" ++ ws1 ++ '(' :: a ++ ';' :: b ++ '<' :: ws2 ++ cap ++ S ".length",
              S "uint256 length = " ++ cap ++ S ".length;" ++ '\n' :: S "        " ++
                S "for (uint256 i = 0; i < length")
          else if cap.isEmpty && !ws2.isEmpty && isPfx (S ".length") (r4.drop ws2.length) then
            some (S "for" ++ ws1 ++ '(' :: a ++ ';' :: b ++ '<' :: ws2 ++ S ".length",
              S "uint256 length = " ++ ws2.drop (ws2.length - 1) ++ S ".length;" ++
                '\n' :: S "        " ++ S "for (uint256 i = 0; i < length")
          else none
        | _ => none
      | _ => none
    | _ => none
  else none

/-- Length of a `\b\w+\.\w+\b` unit starting exactly at the head of `l`:
a maximal non-empty word run, a dot, a maximal non-empty word run (maximality
of the trailing run gives the closing `\b` for free).  The opening `\b` is
the caller's responsibility. -/
def unitAt (l : List Char) : Option Nat :=
  let w1 := l.takeWhile isWordChar
  if w1.isEmpty then none
  else
    match l.drop w1.length with
    | '.' :: r2 =>
      let w2 := r2.takeWhile isWordChar
      if w2.isEmpty then none else some (w1.length + 1 + w2.length)
    | _ => none

/-- All `(start, end)` index pairs of `\b\w+\.\w+\b` units in `l`; `prevW`
says whether the character before position `i` is a word character (the
opening `\b` holds exactly when it is not). -/
def unitsAux (i : Nat) (prevW : Bool) : List Char → List (Nat × Nat)
  | [] => []
  | c :: t =>
    let rest := unitsAux (i + 1) (isWordChar c) t
    if prevW then rest
    else
      match unitAt (c :: t) with
      | some len => (i, i + len) :: rest
      | none => rest

/-- Test of `/\b\w+\.\w+\b.*\b\w+\.\w+\b/` on a single line (no newline in
`l`): the regex matches exactly when some unit ends no later than another
unit starts — `.*` bridges any gap, and since every unit is a pair of maximal
word runs around a dot, the two units of a match are always of this shape. -/
def doubleAccessMatch (l : List Char) : Bool :=
  let us := unitsAux 0 false l
  us.any fun u1 => us.any fun u2 => u1.2 ≤ u2.1

/-- All findings the `forEach` body of `analyzeGasOptimization` pushes for
one line, in push order (lines 124-236 of `solidityAnalyzer.ts`). -/
def gasLineChecks (n : Nat) (line : List Char) : List GasFinding :=
  let t := jsTrim line
  (if isSubstr (S "uint256") t && !isSubstr (S "mapping") t then
    [⟨n, .storage, S "Using uint256 for small values wastes gas",
      S "Use smaller uint types (uint8, uint16, uint32) for values that fit",
      line, replaceFirstBy (litPat "uint256" "uint128") line, 2000⟩]
  else [])
  ++ (if isSubstr (S "string") t && isSubstr (S "public") t then
    [⟨n, .storage, S "String storage is expensive",
      S "Use bytes32 for fixed-length strings or consider off-chain storage",
      line, replaceFirstBy (litPat "string" "bytes32") line, 15000⟩]
  else [])
  ++ (if isSubstr (S "require(") t && isSubstr (S "\"") t then
    match scanFirst requirePat t with
    | some _ =>
      [⟨n, .computation, S "String error messages in require statements consume extra gas",
        S "Use custom errors (Solidity 0.8.4+) instead of string messages",
        line, replaceFirstBy requirePat line, 3000⟩]
    | none => []
  else [])
  ++ (if isSubstr (S "public") t && !isSubstr (S "function") t then
    [⟨n, .storage, S "Public variables create automatic getters, consuming deployment gas",
      S "Make variables private if external access is not needed",
      line, replaceFirstBy (litPat "public" "private") line, 2400⟩]
  else [])
  ++ (if isSubstr (S ".length") t && isSubstr (S "for") t then
    [⟨n, .computation, S "Accessing array.length in loops wastes gas",
      S "Cache array length in a local variable",
      line, replaceFirstBy forPat line, 100⟩]
  else [])
  ++ (if isSubstr (S "i++") t || isSubstr (S "++i") t then
    if isSubstr (S "i++") t then
      [⟨n, .computation, S "Post-increment (i++) is less gas efficient than pre-increment",
        S "Use ++i instead of i++ in loops",
        line, replaceFirstBy (litPat "i++" "++i") line, 5⟩]
    else []
  else [])
  ++ (if isSubstr (S "storage") t && isSubstr (S "function") t then
    [⟨n, .memory, S "Using storage in functions can be expensive",
      S "Use memory for temporary variables if data is not persisted",
      line, replaceFirstBy (litPat "storage" "memory") line, 800⟩]
  else [])
  ++ (if doubleAccessMatch t then
    [⟨n, .storage, S "Multiple storage reads of the same variable waste gas",
      S "Cache storage variables in memory for multiple accesses",
      line, S "// Cache storage variable" ++ '\n' :: S "        " ++ line, 2100⟩]
  else [])

/-- `SolidityAnalyzer.analyzeGasOptimization` (lines 120-239). -/
def analyzeGasOptimization (code : List Char) : List GasFinding :=
  catMap (fun p => gasLineChecks p.1 p.2) (linesEnum 1 (splitNL code))

/-- Interface `OptimizationResult` of `solidityAnalyzer.ts`. -/
structure OptimizationResult where
  syntaxErrors : List SyntaxFinding
  gasOptimizations : List GasFinding
  hasIssues : Bool
deriving DecidableEq

/-- `SolidityAnalyzer.analyzeCode` (lines 241-258): empty and whitespace-only
input short-circuits to an empty result. -/
def analyzeCode (code : List Char) : OptimizationResult :=
  if code.isEmpty || (jsTrim code).isEmpty then ⟨[], [], false⟩
  else
    let se := analyzeSyntax code
    let go := analyzeGasOptimization code
    ⟨se, go, !se.isEmpty || !go.isEmpty⟩

/-- One `{ line, fix }` pair handed to `SolidityAnalyzer.applyFixes`. -/
structure FixPair where
  line : Int
  fix : List Char
deriving DecidableEq

/-- Stable insertion into a list sorted by descending `line`: an element is
placed before the first element whose line number it weakly exceeds, so
equal line numbers keep their original order. -/
def insertFix (f : FixPair) : List FixPair → List FixPair
  | [] => [f]
  | g :: t => if g.line ≤ f.line then f :: g :: t else g :: insertFix f t

/-- `fixes.sort((a, b) => b.line - a.line)`: a stable sort into descending
line-number order (JavaScript's `Array.prototype.sort` is stable). -/
def sortFixesDesc : List FixPair → List FixPair
  | [] => []
  | f :: t => insertFix f (sortFixesDesc t)

/-- The loop body of `applyFixes`: `if (fix.line > 0 && fix.line <=
lines.length) lines[fix.line - 1] = fix.fix`. -/
def setLine (lines : List (List Char)) (f : FixPair) : List (List Char) :=
  if 0 < f.line ∧ f.line ≤ (lines.length : Int) then
    lines.set (f.line - 1).toNat f.fix
  else lines

/-- The line array of `applyFixes` after all fixes were applied, before the
final `join('\n')`. -/
def applyFixesLines (code : List Char) (fixes : List FixPair) : List (List Char) :=
  (sortFixesDesc fixes).foldl setLine (splitNL code)

/-- `SolidityAnalyzer.applyFixes` (lines 260-273). -/
def applyFixes (code : List Char) (fixes : List FixPair) : List Char :=
  joinNL (applyFixesLines code fixes)

/-- The fix list `applyAllFixes` of `OptimizationPanel` collects from an
analysis result: every syntax finding whose fix is truthy (present and not
the empty string, per JavaScript's `if (error.fix)`), then every gas
finding's optimized line. -/
def collectAllFixes (r : OptimizationResult) : List FixPair :=
  catMap (fun e =>
      match e.fix with
      | some fx => if fx.isEmpty then [] else [⟨(e.line : Int), fx⟩]
      | none => []) r.syntaxErrors
    ++ r.gasOptimizations.map (fun o => ⟨(o.line : Int), o.optimizedCode⟩)

/-- Scan a string left to right and test whether the predicate holds at some
position (the embedding of `regex.test(s)` for an unanchored pattern). -/
def scanHas (f : List Char → Bool) : List Char → Bool
  | [] => f []
  | c :: t => f (c :: t) || scanHas f t

/-- Every character lowercased: how a case-insensitive regex sees the text. -/
def lowerAll (l : List Char) : List Char :=
  l.map Char.toLower

/-- `/owner|onlyOwner|Ownable/i.test(code)`: a case-insensitive match of
`onlyOwner` contains one of `owner`, so the alternation matches exactly when
the lowercased text contains `owner` or `ownable`. -/
def hasOwnerRe (code : List Char) : Bool :=
  isSubstr (S "owner") (lowerAll code) || isSubstr (S "ownable") (lowerAll code)

/-- Matcher for `kw\s+\w+` at the current position: the literal keyword, at
least one whitespace character, then a word character (a longer `\w+` run
adds nothing to a boolean test). -/
def kwWsWordAt (kw : String) (l : List Char) : Bool :=
  isPfx (S kw) l &&
    (let r := l.drop (S kw).length
     let ws := r.takeWhile isJsSpace
     !ws.isEmpty && isWordCharOpt (r.drop ws.length).head?)

/-- `/modifier\s+\w+/.test(code)`. -/
def hasModifiersRe (code : List Char) : Bool :=
  scanHas (kwWsWordAt "modifier") code

/-- `/event\s+\w+/.test(code)`. -/
def hasEventsRe (code : List Char) : Bool :=
  scanHas (kwWsWordAt "event") code

/-- Matcher for `function\s+\w+.*payable` at the current position.  `\s+`
must be a non-empty whitespace run (it may cross newlines), `\w+` needs one
word character right after it, and `.*payable` requires an occurrence of
`payable` after that word character and before the next newline (`.` does
not match a newline; extra word characters consumed by `\w+` are
interchangeable with `.*`). -/
def payableSigAt (l : List Char) : Bool :=
  isPfx (S "function") l &&
    (let r := l.drop 8
     let ws := r.takeWhile isJsSpace
     !ws.isEmpty &&
       (match r.drop ws.length with
        | [] => false
        | c :: t2 => isWordChar c && isSubstr (S "payable") (t2.takeWhile (fun x => x != '\n'))))

/-- `/function\s+\w+.*payable/.test(code)` (the `hasPayableFunctions` test of
`AuditPanel.tsx`). -/
def hasPayableRe (code : List Char) : Bool :=
  scanHas payableSigAt code

/-- `/ReentrancyGuard|nonReentrant/.test(code)`. -/
def hasGuardRe (code : List Char) : Bool :=
  isSubstr (S "ReentrancyGuard") code || isSubstr (S "nonReentrant") code

/-- Whether one of the keywords matches at the head of `l` with a word
boundary on each side; `prev` is the character before the current position. -/
def wbKwHere (kws : List String) (prev : Char) (l : List Char) : Bool :=
  !isWordChar prev &&
    kws.any (fun kw => isPfx (S kw) l && !isWordCharOpt (l.drop (S kw).length).head?)

/-- Search for a word-boundary-delimited keyword before the next newline
(the `.*\b(…)\b` tail of a regex, where `.` cannot cross a newline). -/
def wbKwSearch (kws : List String) (prev : Char) : List Char → Bool
  | [] => false
  | c :: t => if c == '\n' then false else wbKwHere kws prev (c :: t) || wbKwSearch kws c t

/-- Matcher for `function\s+\w+.*\b(onlyOwner|onlyAdmin|restricted)\b` at the
current position; as for `payableSigAt`, plus the word boundaries around the
keyword (the character before it must be a non-word character, which is why
the search starts after the first mandatory word character). -/
def restrictedAt (l : List Char) : Bool :=
  isPfx (S "function") l &&
    (let r := l.drop 8
     let ws := r.takeWhile isJsSpace
     !ws.isEmpty &&
       (match r.drop ws.length with
        | [] => false
        | c :: t2 => isWordChar c && wbKwSearch ["onlyOwner", "onlyAdmin", "restricted"] c t2))

/-- `/function\s+\w+.*\b(onlyOwner|onlyAdmin|restricted)\b/.test(code)`. -/
def hasRestrictedRe (code : List Char) : Bool :=
  scanHas restrictedAt code

/-- The line predicate shared by the access-control filter (lines 32-38 of
`AuditPanel.tsx`) and the `hasStateChangingFunctions` test (lines 65-71):
both test the same four substring conditions, only in a different order. -/
def stateChangingFnLine (trimmed : List Char) : Bool :=
  isSubstr (S "function") trimmed
    && (isSubstr (S "public") trimmed || isSubstr (S "external") trimmed)
    && !isSubstr (S "view") trimmed && !isSubstr (S "pure") trimmed

/-- Severity tag of an audit issue. -/
inductive IssueType
  | critical
  | high
  | medium
  | low
  | info
deriving DecidableEq

/-- One issue of `analyzeContract` (interface `AuditIssue` of
`AuditPanel.tsx`). -/
structure AuditIssue where
  type : IssueType
  title : List Char
  description : List Char
  line : Option Nat
  suggestion : List Char
deriving DecidableEq

def titleAccess : List Char := S "Missing Access Control"

def titleReentrancy : List Char := S "Potential Reentrancy Vulnerability"

def titleEvents : List Char := S "Missing Events"

def titleTxOrigin : List Char := S "Use of tx.origin"

def titleTimestamp : List Char := S "Timestamp Dependence"

def titleUnchecked : List Char := S "Unchecked External Call"

def titleOverflow : List Char := S "Potential Integer Overflow"

def titleSpdx : List Char := S "Missing License Identifier"

def titleFloating : List Char := S "Floating Pragma"

/-- The access-control check of `analyzeContract` (lines 26-48). -/
def accessControlIssues (code : List Char) : List AuditIssue :=
  if !hasOwnerRe code && !hasModifiersRe code && !hasRestrictedRe code then
    if !((splitNL code).filter (fun l => stateChangingFnLine (jsTrim l))).isEmpty then
      [⟨.high, titleAccess, S "Contract functions lack proper access control mechanisms",
        none, S "Add modifiers like onlyOwner to restrict function access. Consider using OpenZeppelin's Ownable contract."⟩]
    else []
  else []

/-- The reentrancy check of `analyzeContract` (lines 50-61). -/
def reentrancyIssues (code : List Char) : List AuditIssue :=
  if hasPayableRe code && !hasGuardRe code then
    [⟨.critical, titleReentrancy, S "Payable functions without reentrancy protection detected",
      none, S "Implement reentrancy guards using OpenZeppelin ReentrancyGuard or follow checks-effects-interactions pattern"⟩]
  else []

/-- The missing-events check of `analyzeContract` (lines 63-80). -/
def eventsIssues (code : List Char) : List AuditIssue :=
  if !hasEventsRe code && (splitNL code).any (fun l => stateChangingFnLine (jsTrim l)) then
    [⟨.medium, titleEvents, S "Contract lacks event emissions for important state changes",
      none, S "Add events to track important contract interactions for better transparency and off-chain monitoring"⟩]
  else []

/-- The per-line checks of `analyzeContract` (lines 82-134), in push order:
`tx.origin`, timestamp dependence, unchecked external call, pre-0.8
overflow. -/
def auditLineChecks (n : Nat) (line : List Char) : List AuditIssue :=
  let t := jsTrim line
  (if isSubstr (S "tx.origin") t then
    [⟨.high, titleTxOrigin, S "tx.origin should not be used for authorization",
      some n, S "Use msg.sender instead of tx.origin for authorization checks"⟩]
  else [])
  ++ (if isSubstr (S "block.timestamp") t || isSubstr (S "now") t then
    [⟨.medium, titleTimestamp,
      S "Contract relies on block.timestamp which can be manipulated by miners",
      some n, S "Avoid using timestamps for critical logic or use block numbers with appropriate tolerance"⟩]
  else [])
  ++ (if isSubstr (S ".call(") t || isSubstr (S ".delegatecall(") t then
    if !isSubstr (S "require(") t && !isSubstr (S "if (") t then
      [⟨.high, titleUnchecked, S "External call without checking return value",
        some n, S "Always check the return value of external calls and handle failures appropriately"⟩]
    else []
  else [])
  ++ (if isSubstr (S "pragma solidity") t && !isSubstr (S "^0.8") t then
    if isSubstr (S "+") t || isSubstr (S "-") t || isSubstr (S "*") t then
      [⟨.medium, titleOverflow,
        S "Arithmetic operations without overflow protection in older Solidity versions",
        some n, S "Use SafeMath library or upgrade to Solidity ^0.8.0 for built-in overflow protection"⟩]
    else []
  else [])

/-- The document-level SPDX check of `analyzeContract` (lines 136-144). -/
def spdxIssues (code : List Char) : List AuditIssue :=
  if !isSubstr (S "SPDX-License-Identifier") code then
    [⟨.info, titleSpdx, S "Contract lacks SPDX license identifier", none,
      S "Add SPDX-License-Identifier comment at the top of the file (e.g., // SPDX-License-Identifier: MIT)"⟩]
  else []

/-- The capture group of `code.match(/pragma solidity\s+([^;]+);/)` at the
current position.  `\s+` must take at least one character; `[^;]+` cannot
cross a semicolon, so with `k` leading whitespace characters and the first
semicolon at index `p` the greedy split gives `\s+` the first
`min k (p - 1)` characters and the capture the rest up to the semicolon
(when the character after the whitespace run is already `;`, the engine
backtracks one whitespace character into the capture). -/
def pragmaCapAt (l : List Char) : Option (List Char) :=
  if isPfx (S "pragma solidity") l then
    let r := l.drop 15
    let k := (r.takeWhile isJsSpace).length
    let p := (r.takeWhile (fun c => c != ';')).length
    if k == 0 || p == r.length || p < 2 then none
    else some ((r.take p).drop (min k (p - 1)))
  else none

/-- The capture of the first match of `/pragma solidity\s+([^;]+);/` in the
document, if any. -/
def pragmaCapture (code : List Char) : Option (List Char) :=
  scanFirst pragmaCapAt code

/-- The floating-pragma check of `analyzeContract` (lines 146-155). -/
def floatingPragmaIssues (code : List Char) : List AuditIssue :=
  match pragmaCapture code with
  | some cap =>
    if !isSubstr (S "^") cap then
      [⟨.low, titleFloating, S "Contract uses a floating pragma version", none,
        S "Lock pragma to a specific compiler version to ensure consistent compilation (e.g., pragma solidity 0.8.19;)"⟩]
    else []
  | none => []

/-- `analyzeContract` of `AuditPanel.tsx` (lines 17-158): empty and
whitespace-only input yields no issues; otherwise the document-level and
per-line checks run in source order. -/
def analyzeContract (code : List Char) : List AuditIssue :=
  if code.isEmpty || (jsTrim code).isEmpty then []
  else
    accessControlIssues code ++ reentrancyIssues code ++ eventsIssues code
      ++ catMap (fun p => auditLineChecks p.1 p.2) (linesEnum 1 (splitNL code))
      ++ spdxIssues code ++ floatingPragmaIssues code

/-- The `type` tag of a `ContractElement` (`src/types/index.ts`). -/
inductive ElemKind
  | varE
  | funcE
  | modifierE
  | eventE
  | ctorE
  | structE
  | enumE
  | mappingE
deriving DecidableEq

/-- The `config` bag of a `ContractElement`: every field optional, and an
empty string behaves like an absent one under JavaScript's `||`. -/
structure ElemConfig where
  name : Option (List Char) := none
  dataType : Option (List Char) := none
  visibility : Option (List Char) := none
  parameters : Option (List Char) := none
  returns : Option (List Char) := none
  payable : Option Bool := none
  view : Option Bool := none
  pure : Option Bool := none
  virtual : Option Bool := none
  override : Option Bool := none
  description : Option (List Char) := none
deriving DecidableEq

/-- `ContractElement` of `src/types/index.ts`. -/
structure ContractElement where
  id : List Char
  type : ElemKind
  posX : Int
  posY : Int
  config : ElemConfig
deriving DecidableEq

/-- `v || d` for an optional string field: JavaScript falls back to the
default when the field is absent or the empty string. -/
def jsOrStr (v : Option (List Char)) (d : List Char) : List Char :=
  match v with
  | none => d
  | some s => if s.isEmpty then d else s

/-- Truthiness of an optional boolean flag. -/
def truthyB : Option Bool → Bool
  | some true => true
  | _ => false

/-- The fixed header `generateContract` starts from (lines 39-48 of
`App.tsx`). -/
def contractHeader : List Char :=
  S "// SPDX-License-Identifier: MIT\npragma solidity ^0.8.19;\n\n/**\n * @title Generated Smart Contract\n * @dev This contract was generated using Smart Contract Copilot\n * @notice Drag & drop smart contract development tool\n */\ncontract GeneratedContract \x7b\n"

/-- The declaration line of one state variable (lines 54-58 of `App.tsx`). -/
def varLine (e : ContractElement) : List Char :=
  S "    " ++ jsOrStr e.config.dataType (S "uint256") ++ ' ' ::
    jsOrStr e.config.visibility (S "public") ++ ' ' ::
    jsOrStr e.config.name (S "variable") ++ S ";\n"

/-- The state-variables section (lines 50-60). -/
def sectionVars (els : List ContractElement) : List Char :=
  let vars := els.filter (fun e => e.type == .varE)
  if vars.isEmpty then [] else S "\n    // State Variables\n" ++ catMap varLine vars

/-- One event declaration (lines 66-70). -/
def eventLine (e : ContractElement) : List Char :=
  S "    event " ++ jsOrStr e.config.name (S "NewEvent") ++ '(' ::
    jsOrStr e.config.parameters [] ++ S ");\n"

/-- The events section (lines 62-71). -/
def sectionEvents (els : List ContractElement) : List Char :=
  let events := els.filter (fun e => e.type == .eventE)
  if events.isEmpty then [] else S "\n    // Events\n" ++ catMap eventLine events

/-- One modifier block (lines 77-80). -/
def modifierLine (e : ContractElement) : List Char :=
  S "    modifier " ++ jsOrStr e.config.name (S "newModifier") ++
    S "() \x7b\n        // Add modifier logic here\n        _;\n    \x7d\n\n"

/-- The modifiers section (lines 73-81). -/
def sectionModifiers (els : List ContractElement) : List Char :=
  let modifiers := els.filter (fun e => e.type == .modifierE)
  if modifiers.isEmpty then [] else S "\n    // Modifiers\n" ++ catMap modifierLine modifiers

/-- The constructor section, from the first constructor element if any
(lines 83-89). -/
def sectionCtor (els : List ContractElement) : List Char :=
  match els.find? (fun e => e.type == .ctorE) with
  | some c =>
    S "    // Constructor\n    constructor(" ++ jsOrStr c.config.parameters [] ++
      S ") \x7b\n        // Initialize contract state\n    \x7d\n\n"
  | none => []

/-- One function block (lines 95-107). -/
def funcLine (e : ContractElement) : List Char :=
  let rets :=
    match e.config.returns with
    | some r => if r.isEmpty then [] else S " returns (" ++ r ++ [')']
    | none => []
  let mods :=
    (if truthyB e.config.payable then S " payable" else [])
      ++ (if truthyB e.config.view then S " view" else [])
      ++ (if truthyB e.config.pure then S " pure" else [])
  S "    function " ++ jsOrStr e.config.name (S "newFunction") ++ '(' ::
    jsOrStr e.config.parameters [] ++ S ") " ++ jsOrStr e.config.visibility (S "public") ++
    mods ++ rets ++ S " \x7b\n        // Implement function logic here\n    \x7d\n\n"

/-- The functions section (lines 91-108); unlike the earlier sections its
header has no leading blank line. -/
def sectionFunctions (els : List ContractElement) : List Char :=
  let functions := els.filter (fun e => e.type == .funcE)
  if functions.isEmpty then [] else S "    // Functions\n" ++ catMap funcLine functions

/-- One struct block (lines 114-117). -/
def structLine (e : ContractElement) : List Char :=
  S "    struct " ++ jsOrStr e.config.name (S "NewStruct") ++
    S " \x7b\n        // Define struct fields\n        uint256 id;\n        address owner;\n    \x7d\n\n"

/-- The structs section (lines 110-118). -/
def sectionStructs (els : List ContractElement) : List Char :=
  let structs := els.filter (fun e => e.type == .structE)
  if structs.isEmpty then [] else S "    // Structs\n" ++ catMap structLine structs

/-- One enum line (lines 124-127). -/
def enumLine (e : ContractElement) : List Char :=
  S "    enum " ++ jsOrStr e.config.name (S "Status") ++
    S " \x7b Pending, Active, Inactive \x7d\n\n"

/-- The enums section (lines 120-128). -/
def sectionEnums (els : List ContractElement) : List Char :=
  let enums := els.filter (fun e => e.type == .enumE)
  if enums.isEmpty then [] else S "    // Enums\n" ++ catMap enumLine enums

/-- One mapping declaration (lines 134-137). -/
def mappingLine (e : ContractElement) : List Char :=
  S "    mapping(address => uint256) " ++ jsOrStr e.config.visibility (S "public") ++ ' ' ::
    jsOrStr e.config.name (S "mapping") ++ S ";\n"

/-- The mappings section (lines 130-139). -/
def sectionMappings (els : List ContractElement) : List Char :=
  let mappings := els.filter (fun e => e.type == .mappingE)
  if mappings.isEmpty then [] else S "    // Mappings\n" ++ catMap mappingLine mappings

/-- `generateContract` of `App.tsx` (lines 38-143): the fixed header, one
section per element kind in fixed order, the closing brace. -/
def generateContract (els : List ContractElement) : List Char :=
  contractHeader ++ sectionVars els ++ sectionEvents els ++ sectionModifiers els
    ++ sectionCtor els ++ sectionFunctions els ++ sectionStructs els ++ sectionEnums els
    ++ sectionMappings els ++ S "\x7d\n"

/-- A file selected in the import dialog: its name, and its text or `none`
when reading the file fails (`file.text()` rejecting). -/
structure FileSel where
  name : List Char
  content : Option (List Char)
deriving DecidableEq

/-- The application state the import path touches (held by `App.tsx`). -/
structure AppState where
  elements : List ContractElement
  generatedCode : List Char
  showAudit : Bool
deriving DecidableEq

/-- What the user observes of one import attempt: success, the wrong-extension
alert, the read-failure alert, or no file chosen. -/
inductive ImportOutcome
  | imported
  | rejectedExtension
  | readError
  | noFile
deriving DecidableEq

/-- `handleFileChange` of the header component combined with
`handleImportContract` of `App.tsx`: a selected file is imported exactly when
its name ends in `.sol`, its raw text then replaces the generated code
verbatim (and the audit panel is opened); any other extension only raises an
alert, and a failing read leaves the state unchanged. -/
def handleFileChange (st : AppState) (file : Option FileSel) : AppState × ImportOutcome :=
  match file with
  | none => (st, .noFile)
  | some f =>
    if isSfx (S ".sol") f.name then
      match f.content with
      | some text => ({ st with generatedCode := text, showAudit := true }, .imported)
      | none => (st, .readError)
    else (st, .rejectedExtension)

/-- Modelled from the claim's words for comparison with the code: a line
contains the bare word `now` when some occurrence of `now` is delimited by
word boundaries (not a substring of a longer identifier such as `known`). -/
def specBareWordNowAux (prev : Option Char) : List Char → Bool
  | [] => false
  | c :: t =>
    (isPfx (S "now") (c :: t) && !isWordCharOpt prev && !isWordCharOpt (t.drop 2).head?)
      || specBareWordNowAux (some c) t

/-- Modelled from the claim's words: whether a line contains the bare,
word-delimited word `now`. -/
def specBareWordNow (l : List Char) : Bool :=
  specBareWordNowAux none l

/-- Modelled from the claim's words for comparison with the code: the
missing-semicolon rule's firing condition on the trimmed line, reading
"declaration keyword lines" as lines that begin with one of the five
keywords, "comment lines" as lines beginning with a comment opener, and
"brace-only lines" as lines that are exactly one brace. -/
def specMissingSemiLine (t : List Char) : Bool :=
  !t.isEmpty
    && !(isPfx (S "//") t || isPfx (S "/*") t || isPfx (S "*") t)
    && !(t == ['{'] || t == ['}'])
    && !(isPfx (S "pragma") t || isPfx (S "import") t || isPfx (S "contract") t
          || isPfx (S "interface") t || isPfx (S "library") t)
    && !(isSfx [';'] t || isSfx ['{'] t || isSfx ['}'] t)

/-! ### Basic lemmas about the string helpers -/

theorem splitNL_ne_nil (l : List Char) : splitNL l ≠ [] := by
  cases l with
  | nil => simp [splitNL]
  | cons c t =>
    simp only [splitNL]
    split
    · simp
    · cases h : splitNL t <;> simp

theorem splitNL_cons_newline (t : List Char) : splitNL ('\n' :: t) = [] :: splitNL t := by
  simp [splitNL]

theorem splitNL_cons_other (c : Char) (t : List Char) (hc : ¬c = '\n') :
    splitNL (c :: t) =
      match splitNL t with
      | [] => [[c]]
      | l :: ls => (c :: l) :: ls := by
  simp [splitNL, hc]

theorem splitNL_append (a b : List Char) :
    splitNL (a ++ '\n' :: b) = splitNL a ++ splitNL b := by
  induction a with
  | nil => simp [splitNL]
  | cons c t ih =>
    by_cases hc : c = '\n'
    · subst hc
      rw [List.cons_append, splitNL_cons_newline, splitNL_cons_newline, ih]
      rfl
    · rw [List.cons_append, splitNL_cons_other c _ hc, splitNL_cons_other c _ hc, ih]
      cases h : splitNL t with
      | nil => exact absurd h (splitNL_ne_nil t)
      | cons l ls => simp

theorem splitNL_no_newline (l : List Char) (h : '\n' ∉ l) : splitNL l = [l] := by
  induction l with
  | nil => rfl
  | cons c t ih =>
    have hc : ¬c = '\n' := fun e => h (e ▸ List.mem_cons_self c t)
    have ht : '\n' ∉ t := fun m => h (List.mem_cons_of_mem c m)
    simp only [splitNL, if_neg hc, ih ht]

theorem jsTrim_nil : jsTrim [] = [] := rfl

theorem jsTrim_eq_nil_all_space (l : List Char) (h : jsTrim l = []) :
    ∀ c ∈ l, isJsSpace c = true := by
  intro c hc
  unfold jsTrim at h
  rw [List.reverse_eq_nil_iff, List.dropWhile_eq_nil_iff] at h
  have hdrop : ∀ x ∈ l.dropWhile isJsSpace, isJsSpace x = true := by
    intro x hx
    exact h _ (by simpa using List.mem_reverse.2 hx)
  have hc' : c ∈ List.takeWhile isJsSpace l ++ List.dropWhile isJsSpace l := by
    rw [List.takeWhile_append_dropWhile]
    exact hc
  rcases List.mem_append.1 hc' with hx | hx
  · exact List.mem_takeWhile_imp hx
  · exact hdrop _ hx

/-! ### Lemmas about `catMap` and `linesEnum` -/

theorem catMap_append {α β : Type} (f : α → List β) (a b : List α) :
    catMap f (a ++ b) = catMap f a ++ catMap f b := by
  induction a with
  | nil => rfl
  | cons x t ih => simp [catMap, ih]

theorem mem_catMap {α β : Type} {f : α → List β} {x : β} :
    ∀ {l : List α}, x ∈ catMap f l ↔ ∃ a ∈ l, x ∈ f a
  | [] => by simp [catMap]
  | a :: t => by
    simp only [catMap, List.mem_append, mem_catMap (l := t), List.mem_cons]
    constructor
    · rintro (h | ⟨b, hb, hx⟩)
      · exact ⟨a, Or.inl rfl, h⟩
      · exact ⟨b, Or.inr hb, hx⟩
    · rintro ⟨b, (rfl | hb), hx⟩
      · exact Or.inl hx
      · exact Or.inr ⟨b, hb, hx⟩

theorem filter_catMap {α β : Type} (p : β → Bool) (f : α → List β) (l : List α) :
    (catMap f l).filter p = catMap (fun a => (f a).filter p) l := by
  induction l with
  | nil => rfl
  | cons a t ih => simp [catMap, List.filter_append, ih]

theorem catMap_congr {α β : Type} {f g : α → List β} {l : List α}
    (h : ∀ a ∈ l, f a = g a) : catMap f l = catMap g l := by
  induction l with
  | nil => rfl
  | cons a t ih =>
    simp only [catMap, h a (List.mem_cons_self a t),
      ih fun b hb => h b (List.mem_cons_of_mem a hb)]

theorem catMap_eq_nil {α β : Type} {f : α → List β} {l : List α}
    (h : ∀ a ∈ l, f a = []) : catMap f l = [] := by
  induction l with
  | nil => rfl
  | cons a t ih =>
    simp [catMap, h a (List.mem_cons_self a t), ih fun b hb => h b (List.mem_cons_of_mem a hb)]

theorem catMap_if_singleton {α β : Type} (q : α → Bool) (g : α → β) (l : List α) :
    catMap (fun a => if q a then [g a] else []) l = (l.filter q).map g := by
  induction l with
  | nil => rfl
  | cons a t ih =>
    cases h : q a <;> simp [catMap, List.filter_cons, h, ih]

theorem mem_linesEnum {p : Nat × List Char} :
    ∀ {m : Nat} {ls : List (List Char)}, p ∈ linesEnum m ls →
      m ≤ p.1 ∧ p.1 < m + ls.length ∧ ls[p.1 - m]? = some p.2
  | m, [], h => by simp [linesEnum] at h
  | m, l :: t, h => by
    rcases List.mem_cons.1 h with rfl | h
    · simp
    · obtain ⟨h1, h2, h3⟩ := mem_linesEnum (m := m + 1) h
      refine ⟨by omega, by simp; omega, ?_⟩
      have : p.1 - m = (p.1 - (m + 1)) + 1 := by omega
      rw [this]
      simpa using h3

/-! ### Substring tests ignore trimming when the needle has no whitespace -/

theorem isPfx_iff (n h : List Char) : isPfx n h = true ↔ List.IsPrefix n h := by
  induction n generalizing h with
  | nil => simp [isPfx, List.nil_prefix]
  | cons a as ih =>
    cases h with
    | nil => simp [isPfx, List.prefix_nil]
    | cons b bs => simp [isPfx, ih, List.cons_prefix_cons]

theorem isSubstr_iff (n h : List Char) : isSubstr n h = true ↔ List.IsInfix n h := by
  induction h with
  | nil => simp [isSubstr, isPfx_iff, List.prefix_nil, List.infix_nil]
  | cons c t ih => simp [isSubstr, isPfx_iff, ih, List.infix_cons_iff]

theorem isSubstr_reverse (n h : List Char) : isSubstr n h.reverse = isSubstr n.reverse h := by
  rw [Bool.eq_iff_iff, isSubstr_iff, isSubstr_iff]
  constructor
  · intro hinf
    have h2 := List.reverse_infix.2 hinf
    rwa [List.reverse_reverse] at h2
  · intro hinf
    have h2 := List.reverse_infix.2 hinf
    rwa [List.reverse_reverse] at h2

theorem isSubstr_dropWhile_space (n : List Char) (hn : n ≠ [])
    (hns : ∀ c ∈ n, isJsSpace c = false) (l : List Char) :
    isSubstr n (l.dropWhile isJsSpace) = isSubstr n l := by
  induction l with
  | nil => rfl
  | cons c t ih =>
    rw [List.dropWhile_cons]
    cases hc : isJsSpace c with
    | false => simp [hc]
    | true =>
      simp only [hc, if_true]
      rw [ih]
      show isSubstr n t = isSubstr n (c :: t)
      cases n with
      | nil => exact absurd rfl hn
      | cons a as =>
        have ha : isJsSpace a = false := hns a (List.mem_cons_self _ _)
        have hac : (a == c) = false := by
          rw [beq_eq_false_iff_ne]
          intro he
          rw [he, hc] at ha
          exact absurd ha (by decide)
        rw [show isSubstr (a :: as) (c :: t) =
          (isPfx (a :: as) (c :: t) || isSubstr (a :: as) t) from rfl]
        simp [isPfx, hac]

/-- A needle without whitespace characters occurs in the trimmed line exactly
when it occurs in the line: trimming only removes whitespace at the two ends,
which such a needle cannot straddle. -/
theorem isSubstr_jsTrim (n l : List Char) (hn : n ≠ [])
    (hns : ∀ c ∈ n, isJsSpace c = false) :
    isSubstr n (jsTrim l) = isSubstr n l := by
  have hrn : n.reverse ≠ [] := by simpa using hn
  have hrns : ∀ c ∈ n.reverse, isJsSpace c = false := fun c hc =>
    hns c (List.mem_reverse.1 hc)
  unfold jsTrim
  rw [isSubstr_reverse, isSubstr_dropWhile_space n.reverse hrn hrns, isSubstr_reverse,
    List.reverse_reverse, isSubstr_dropWhile_space n hn hns]

/-! ### C1: `analyzeCode` is total, with `hasIssues` iff a list is non-empty -/

/-- Claim C1: for every empty or whitespace-only input `analyzeCode` returns
two empty finding lists with `hasIssues = false`, and for every input,
`hasIssues` is true exactly when one of the two finding lists is
non-empty. -/
theorem c1_analyzeCode_output_contract (code : List Char) :
    (jsTrim code = [] → analyzeCode code = ⟨[], [], false⟩) ∧
    ((analyzeCode code).hasIssues = true ↔
      (analyzeCode code).syntaxErrors ≠ [] ∨ (analyzeCode code).gasOptimizations ≠ []) := by
  constructor
  · intro h
    simp [analyzeCode, h]
  · cases hg : (code.isEmpty || (jsTrim code).isEmpty) with
    | true => simp [analyzeCode, hg]
    | false =>
      simp only [analyzeCode, hg, Bool.false_eq_true, if_false]
      simp [List.isEmpty_iff]

/-- Witness for C1 at the whitespace-only input `" "`. -/
theorem c1_witness : analyzeCode (S " ") = ⟨[], [], false⟩ :=
  (c1_analyzeCode_output_contract (S " ")).1 (by decide)

/-! ### C2: `applyFixes` replaces exactly the in-range named lines -/

theorem setLine_length (L : List (List Char)) (f : FixPair) :
    (setLine L f).length = L.length := by
  unfold setLine
  split <;> simp

theorem foldl_setLine_length (fs : List FixPair) :
    ∀ L : List (List Char), (fs.foldl setLine L).length = L.length := by
  induction fs with
  | nil => intro L; rfl
  | cons f t ih => intro L; rw [List.foldl_cons, ih, setLine_length]

theorem setLine_getElem_ne (L : List (List Char)) (f : FixPair) (i : Nat)
    (h : f.line ≠ (i : Int) + 1) : (setLine L f)[i]? = L[i]? := by
  unfold setLine
  split
  · next hcond =>
    have hne : (f.line - 1).toNat ≠ i := by omega
    exact List.getElem?_set_ne hne
  · rfl

theorem foldl_setLine_ne (i : Nat) :
    ∀ (fs : List FixPair) (L : List (List Char)), (∀ f ∈ fs, f.line ≠ (i : Int) + 1) →
      (fs.foldl setLine L)[i]? = L[i]? := by
  intro fs
  induction fs with
  | nil => intro L _; rfl
  | cons g t ih =>
    intro L h
    rw [List.foldl_cons, ih _ fun f hf => h f (List.mem_cons_of_mem g hf),
      setLine_getElem_ne _ _ _ (h g (List.mem_cons_self g t))]

theorem foldl_setLine_eq (i : Nat) :
    ∀ (fs : List FixPair) (L : List (List Char)), (fs.map FixPair.line).Nodup →
      ∀ f ∈ fs, f.line = (i : Int) + 1 → i < L.length →
      (fs.foldl setLine L)[i]? = some f.fix := by
  intro fs
  induction fs with
  | nil => intro L _ f hf; simp at hf
  | cons g t ih =>
    intro L hnd f hf hline hi
    rw [List.map_cons, List.nodup_cons] at hnd
    rcases List.mem_cons.1 hf with rfl | hf
    · rw [List.foldl_cons, foldl_setLine_ne]
      · unfold setLine
        rw [if_pos (by constructor <;> omega)]
        have htn : (f.line - 1).toNat = i := by omega
        rw [htn]
        exact List.getElem?_set_self (by omega)
      · intro f' hf' he
        exact hnd.1 (by rw [← hline] at he; exact he ▸ List.mem_map_of_mem FixPair.line hf')
    · exact ih _ hnd.2 f hf hline (by rw [setLine_length]; exact hi)

theorem insertFix_perm (f : FixPair) (l : List FixPair) :
    List.Perm (insertFix f l) (f :: l) := by
  induction l with
  | nil => rfl
  | cons g t ih =>
    unfold insertFix
    split
    · rfl
    · exact (List.Perm.cons g ih).trans (List.Perm.swap f g t)

theorem sortFixesDesc_perm (l : List FixPair) : List.Perm (sortFixesDesc l) l := by
  induction l with
  | nil => rfl
  | cons f t ih => exact (insertFix_perm f (sortFixesDesc t)).trans (ih.cons f)

/-- Claim C2: with pairwise-distinct line numbers, `applyFixes` joins a line
list of the original length in which every line named by an in-range fix
(1-based, interpreted against the pre-fix text) is wholly replaced by that
fix's text, and every other line — including every line named only by an
out-of-range fix — is unchanged. -/
theorem c2_applyFixes_replaces_named_lines (code : List Char) (fixes : List FixPair)
    (hnd : (fixes.map FixPair.line).Nodup) :
    applyFixes code fixes = joinNL (applyFixesLines code fixes) ∧
    (applyFixesLines code fixes).length = (splitNL code).length ∧
    ∀ i, i < (splitNL code).length →
      ((∀ f ∈ fixes, f.line ≠ (i : Int) + 1) →
        (applyFixesLines code fixes)[i]? = (splitNL code)[i]?) ∧
      (∀ f ∈ fixes, f.line = (i : Int) + 1 →
        (applyFixesLines code fixes)[i]? = some f.fix) := by
  refine ⟨rfl, foldl_setLine_length _ _, fun i hi => ⟨fun h => ?_, fun f hf hline => ?_⟩⟩
  · exact foldl_setLine_ne i _ _ fun f hf =>
      h f ((sortFixesDesc_perm fixes).mem_iff.1 hf)
  · exact foldl_setLine_eq i _ _
      (((sortFixesDesc_perm fixes).map FixPair.line).nodup_iff.2 hnd)
      f ((sortFixesDesc_perm fixes).mem_iff.2 hf) hline hi

/-- Witness for C2: the spec's example, fixes at lines 5 and 2 of a six-line
document; line 5 and line 2 are replaced and line 1 is untouched. -/
theorem c2_witness :
    (applyFixesLines (S "l1\nl2\nl3\nl4\nl5\nl6") [⟨5, S "F5"⟩, ⟨2, S "F2"⟩])[4]? =
        some (S "F5") ∧
      (applyFixesLines (S "l1\nl2\nl3\nl4\nl5\nl6") [⟨5, S "F5"⟩, ⟨2, S "F2"⟩])[0]? =
        some (S "l1") := by
  have h := c2_applyFixes_replaces_named_lines (S "l1\nl2\nl3\nl4\nl5\nl6")
    [⟨5, S "F5"⟩, ⟨2, S "F2"⟩] (by decide)
  constructor
  · exact (h.2.2 4 (by decide)).2 ⟨5, S "F5"⟩ (by decide) (by decide)
  · rw [(h.2.2 0 (by decide)).1 (by decide)]
    decide

/-! ### C9: import accepts exactly the `.sol` extension -/

/-- Claim C9: a selected file is imported exactly when its name ends in
`.sol`; a rejected file leaves the source text and the element list
unchanged and raises the extension alert; an accepted, readable file's raw
text becomes the source text verbatim with the element list unchanged; a
failing read leaves the state unchanged. -/
theorem c9_import_extension_gate (st : AppState) (f : FileSel) :
    (isSfx (S ".sol") f.name = false →
      handleFileChange st (some f) = (st, ImportOutcome.rejectedExtension)) ∧
    (∀ text, isSfx (S ".sol") f.name = true → f.content = some text →
      (handleFileChange st (some f)).1.generatedCode = text ∧
      (handleFileChange st (some f)).1.elements = st.elements ∧
      (handleFileChange st (some f)).2 = ImportOutcome.imported) ∧
    (isSfx (S ".sol") f.name = true → f.content = none →
      handleFileChange st (some f) = (st, ImportOutcome.readError)) := by
  refine ⟨fun h => ?_, fun text hs hc => ?_, fun hs hc => ?_⟩
  · simp [handleFileChange, h]
  · simp [handleFileChange, hs, hc]
  · simp [handleFileChange, hs, hc]

/-! ### Filter lemmas for the syntax analyzer's per-line rules -/

theorem missingSemiCheck_filter_drop (n : Nat) (line t M : List Char)
    (h : (msgMissingSemi == M) = false) :
    (missingSemiCheck n line t).filter (fun f => f.message == M) = [] := by
  unfold missingSemiCheck
  split <;> simp [List.filter_cons, List.filter_nil, h]

theorem missingSemiCheck_filter_keep (n : Nat) (line t : List Char) :
    (missingSemiCheck n line t).filter (fun f => f.message == msgMissingSemi) =
      missingSemiCheck n line t := by
  unfold missingSemiCheck
  split <;> simp [List.filter_cons, List.filter_nil]

theorem visCheck_filter_drop (n : Nat) (line t M : List Char)
    (h : (msgVisOrder == M) = false) :
    (visCheck n line t).filter (fun f => f.message == M) = [] := by
  unfold visCheck
  cases hsf : scanFirst visMatchAt t <;> simp [List.filter_cons, List.filter_nil, h]

theorem nowCheck_filter_drop (n : Nat) (line t M : List Char)
    (h : (msgNow == M) = false) :
    (nowCheck n line t).filter (fun f => f.message == M) = [] := by
  unfold nowCheck
  split <;> simp [List.filter_cons, List.filter_nil, h]

theorem nowCheck_filter_keep (n : Nat) (line t : List Char) :
    (nowCheck n line t).filter (fun f => f.message == msgNow) = nowCheck n line t := by
  unfold nowCheck
  split <;> simp [List.filter_cons, List.filter_nil]

theorem txCheck_filter_drop (n : Nat) (line t M : List Char)
    (h : (msgTxOrigin == M) = false) :
    (txCheck n line t).filter (fun f => f.message == M) = [] := by
  unfold txCheck
  split <;> simp [List.filter_cons, List.filter_nil, h]

theorem txCheck_filter_keep (n : Nat) (line t : List Char) :
    (txCheck n line t).filter (fun f => f.message == msgTxOrigin) = txCheck n line t := by
  unfold txCheck
  split <;> simp [List.filter_cons, List.filter_nil]

theorem spdxCheck_filter_drop (n : Nat) (line t M : List Char)
    (h : (msgSpdx == M) = false) :
    (spdxCheck n line t).filter (fun f => f.message == M) = [] := by
  unfold spdxCheck
  split <;> simp [List.filter_cons, List.filter_nil, h]

theorem spdxCheck_filter_keep (n : Nat) (line t : List Char) :
    (spdxCheck n line t).filter (fun f => f.message == msgSpdx) = spdxCheck n line t := by
  unfold spdxCheck
  split <;> simp [List.filter_cons, List.filter_nil]

theorem pragmaCheck_filter_drop (n : Nat) (line t M : List Char)
    (h : (msgPragma == M) = false) :
    (pragmaCheck n line t).filter (fun f => f.message == M) = [] := by
  unfold pragmaCheck
  split <;> simp [List.filter_cons, List.filter_nil, h]

theorem syntaxLineChecks_filter_semi (n : Nat) (line : List Char) :
    (syntaxLineChecks n line).filter (fun f => f.message == msgMissingSemi) =
      missingSemiCheck n line (jsTrim line) := by
  unfold syntaxLineChecks
  rw [List.filter_append, List.filter_append, List.filter_append, List.filter_append,
    List.filter_append,
    visCheck_filter_drop _ _ _ msgMissingSemi (by decide),
    nowCheck_filter_drop _ _ _ msgMissingSemi (by decide),
    txCheck_filter_drop _ _ _ msgMissingSemi (by decide),
    spdxCheck_filter_drop _ _ _ msgMissingSemi (by decide),
    pragmaCheck_filter_drop _ _ _ msgMissingSemi (by decide),
    missingSemiCheck_filter_keep]
  simp

theorem syntaxLineChecks_filter_now (n : Nat) (line : List Char) :
    (syntaxLineChecks n line).filter (fun f => f.message == msgNow) =
      nowCheck n line (jsTrim line) := by
  unfold syntaxLineChecks
  rw [List.filter_append, List.filter_append, List.filter_append, List.filter_append,
    List.filter_append,
    missingSemiCheck_filter_drop _ _ _ msgNow (by decide),
    visCheck_filter_drop _ _ _ msgNow (by decide),
    txCheck_filter_drop _ _ _ msgNow (by decide),
    spdxCheck_filter_drop _ _ _ msgNow (by decide),
    pragmaCheck_filter_drop _ _ _ msgNow (by decide),
    nowCheck_filter_keep]
  simp

theorem syntaxLineChecks_filter_tx (n : Nat) (line : List Char) :
    (syntaxLineChecks n line).filter (fun f => f.message == msgTxOrigin) =
      txCheck n line (jsTrim line) := by
  unfold syntaxLineChecks
  rw [List.filter_append, List.filter_append, List.filter_append, List.filter_append,
    List.filter_append,
    missingSemiCheck_filter_drop _ _ _ msgTxOrigin (by decide),
    visCheck_filter_drop _ _ _ msgTxOrigin (by decide),
    nowCheck_filter_drop _ _ _ msgTxOrigin (by decide),
    spdxCheck_filter_drop _ _ _ msgTxOrigin (by decide),
    pragmaCheck_filter_drop _ _ _ msgTxOrigin (by decide),
    txCheck_filter_keep]
  simp

theorem syntaxLineChecks_filter_spdx (n : Nat) (line : List Char) :
    (syntaxLineChecks n line).filter (fun f => f.message == msgSpdx) =
      spdxCheck n line (jsTrim line) := by
  unfold syntaxLineChecks
  rw [List.filter_append, List.filter_append, List.filter_append, List.filter_append,
    List.filter_append,
    missingSemiCheck_filter_drop _ _ _ msgSpdx (by decide),
    visCheck_filter_drop _ _ _ msgSpdx (by decide),
    nowCheck_filter_drop _ _ _ msgSpdx (by decide),
    txCheck_filter_drop _ _ _ msgSpdx (by decide),
    pragmaCheck_filter_drop _ _ _ msgSpdx (by decide),
    spdxCheck_filter_keep]
  simp

/-! ### C4: the deprecated-`now` rule -/

/-- Claim C4 (amended): the deprecated-`now` rule fires exactly on the lines
whose trimmed text contains the substring `now` — also inside a longer
identifier — and each finding's fix is the line with every word-delimited
occurrence of `now` replaced by `block.timestamp`. -/
theorem c4_now_rule_characterization (code : List Char) :
    (analyzeSyntax code).filter (fun f => f.message == msgNow) =
      ((linesEnum 1 (splitNL code)).filter
          (fun p => isSubstr (S "now") p.2)).map
        (fun p => ⟨p.1, indexOfSub (S "now") p.2, msgNow, .warning,
          some (replaceNowAll p.2)⟩) := by
  have h1 : (analyzeSyntax code).filter (fun f => f.message == msgNow) =
      ((linesEnum 1 (splitNL code)).filter
          (fun p => isSubstr (S "now") (jsTrim p.2))).map
        (fun p => ⟨p.1, indexOfSub (S "now") p.2, msgNow, .warning,
          some (replaceNowAll p.2)⟩) := by
    unfold analyzeSyntax
    rw [filter_catMap, catMap_congr fun p _ => syntaxLineChecks_filter_now p.1 p.2]
    exact catMap_if_singleton _ _ _
  rw [h1]
  exact congrArg (List.map _)
    (List.filter_congr fun p _ => isSubstr_jsTrim (S "now") p.2 (by decide) (by decide))

/-- Counterexample to claim C4 as stated: the line `known;` contains no bare
word `now`, yet the rule fires on it (and its fix leaves the line
unchanged, since the word-delimited replacement finds nothing). -/
theorem c4_counterexample :
    specBareWordNow (S "known;") = false ∧
    (analyzeSyntax (S "known;")).filter (fun f => f.message == msgNow) =
      [⟨1, 1, msgNow, Severity.warning, some (S "known;")⟩] := by
  decide

/-! ### C5: the missing-semicolon rule -/

/-- Claim C5 (amended): the missing-semicolon rule fires exactly on the lines
whose trimmed text is non-empty, does not start with `//`, `/*` or `*`, does
not end in `;`, `{` or `}`, and does not contain any of the substrings
`pragma`, `import`, `contract`, `interface`, `library` (a substring test,
not a declaration-line test); the finding's fix is the original line with
`;` appended. -/
theorem c5_missing_semi_characterization (code : List Char) :
    (analyzeSyntax code).filter (fun f => f.message == msgMissingSemi) =
      ((linesEnum 1 (splitNL code)).filter
          (fun p => missingSemiCond (jsTrim p.2))).map
        (fun p => ⟨p.1, ((p.2.length : Nat) : Int), msgMissingSemi, .error,
          some (p.2 ++ [';'])⟩) := by
  unfold analyzeSyntax
  rw [filter_catMap, catMap_congr fun p _ => syntaxLineChecks_filter_semi p.1 p.2]
  exact catMap_if_singleton _ _ _

/-- Counterexample to claim C5 as stated: `uint important` is a non-empty,
non-comment, non-brace, non-declaration line not ending in `;`, `{` or `}`,
so the claim predicts a missing-semicolon finding; the code fires no such
finding because `important` contains the substring `import`. -/
theorem c5_counterexample :
    specMissingSemiLine (jsTrim (S "uint important")) = true ∧
    (analyzeSyntax (S "uint important")).filter
      (fun f => f.message == msgMissingSemi) = [] := by
  decide

/-! ### C6: the `tx.origin` rule -/

/-- Claim C6: the `tx.origin` rule fires exactly once per line containing the
literal substring `tx.origin`, the finding's fix being the line with every
occurrence replaced by `msg.sender` and all other characters unchanged; in
particular `address public owner = tx.origin;` yields the fix
`address public owner = msg.sender;`. -/
theorem c6_tx_origin_rule (code : List Char) :
    ((analyzeSyntax code).filter (fun f => f.message == msgTxOrigin) =
      ((linesEnum 1 (splitNL code)).filter
          (fun p => isSubstr (S "tx.origin") p.2)).map
        (fun p => ⟨p.1, indexOfSub (S "tx.origin") p.2, msgTxOrigin, .error,
          some (replaceAllLit (S "tx.origin") (S "msg.sender") p.2)⟩)) ∧
    (analyzeSyntax (S "address public owner = tx.origin;")).filter
        (fun f => f.message == msgTxOrigin) =
      [⟨1, 23, msgTxOrigin, Severity.error, some (S "address public owner = msg.sender;")⟩] := by
  constructor
  · have h1 : (analyzeSyntax code).filter (fun f => f.message == msgTxOrigin) =
        ((linesEnum 1 (splitNL code)).filter
            (fun p => isSubstr (S "tx.origin") (jsTrim p.2))).map
          (fun p => ⟨p.1, indexOfSub (S "tx.origin") p.2, msgTxOrigin, .error,
            some (replaceAllLit (S "tx.origin") (S "msg.sender") p.2)⟩) := by
      unfold analyzeSyntax
      rw [filter_catMap, catMap_congr fun p _ => syntaxLineChecks_filter_tx p.1 p.2]
      exact catMap_if_singleton _ _ _
    rw [h1]
    exact congrArg (List.map _)
      (List.filter_congr fun p _ =>
        isSubstr_jsTrim (S "tx.origin") p.2 (by decide) (by decide))
  · decide

/-! ### C3: the missing-SPDX rule -/

theorem spdx_filter_tail_empty :
    ∀ (ls : List (List Char)) (m : Nat), 2 ≤ m →
      (catMap (fun p => syntaxLineChecks p.1 p.2) (linesEnum m ls)).filter
        (fun f => f.message == msgSpdx) = [] := by
  intro ls
  induction ls with
  | nil => intro m _; rfl
  | cons l t ih =>
    intro m hm
    have h1 : (m == 1) = false := by
      simp only [beq_eq_false_iff_ne]
      omega
    rw [linesEnum, catMap, List.filter_append, syntaxLineChecks_filter_spdx,
      ih (m + 1) (by omega)]
    simp [spdxCheck, h1]

/-! ### Filter lemmas for the audit panel's rules -/

theorem accessControlIssues_filter_drop (code M : List Char)
    (h : (titleAccess == M) = false) :
    (accessControlIssues code).filter (fun i => i.title == M) = [] := by
  unfold accessControlIssues
  split
  · split <;> simp [List.filter_cons, List.filter_nil, h]
  · rfl

theorem reentrancyIssues_filter_drop (code M : List Char)
    (h : (titleReentrancy == M) = false) :
    (reentrancyIssues code).filter (fun i => i.title == M) = [] := by
  unfold reentrancyIssues
  split <;> simp [List.filter_cons, List.filter_nil, h]

theorem reentrancyIssues_filter_keep (code : List Char) :
    (reentrancyIssues code).filter (fun i => i.title == titleReentrancy) =
      reentrancyIssues code := by
  unfold reentrancyIssues
  split <;> simp [List.filter_cons, List.filter_nil]

theorem eventsIssues_filter_drop (code M : List Char)
    (h : (titleEvents == M) = false) :
    (eventsIssues code).filter (fun i => i.title == M) = [] := by
  unfold eventsIssues
  split <;> simp [List.filter_cons, List.filter_nil, h]

theorem mem_if_singleton {α : Type} {x a : α} {c : Prop} [Decidable c]
    (h : a ∈ (if c then [x] else [])) : a = x := by
  split at h
  · simpa using h
  · simp at h

theorem mem_if_if_singleton {α : Type} {x a : α} {c d : Prop} [Decidable c] [Decidable d]
    (h : a ∈ (if c then if d then [x] else [] else [])) : a = x := by
  split at h
  · exact mem_if_singleton h
  · simp at h

theorem auditLineChecks_filter_drop (n : Nat) (line M : List Char)
    (h1 : (titleTxOrigin == M) = false) (h2 : (titleTimestamp == M) = false)
    (h3 : (titleUnchecked == M) = false) (h4 : (titleOverflow == M) = false) :
    (auditLineChecks n line).filter (fun i => i.title == M) = [] := by
  rw [List.filter_eq_nil_iff]
  intro a ha
  simp only [auditLineChecks, List.mem_append] at ha
  rcases ha with ((h | h) | h) | h
  · rw [mem_if_singleton h]
    simp [h1]
  · rw [mem_if_singleton h]
    simp [h2]
  · rw [mem_if_if_singleton h]
    simp [h3]
  · rw [mem_if_if_singleton h]
    simp [h4]

theorem spdxIssues_filter_drop (code M : List Char)
    (h : (titleSpdx == M) = false) :
    (spdxIssues code).filter (fun i => i.title == M) = [] := by
  unfold spdxIssues
  split <;> simp [List.filter_cons, List.filter_nil, h]

theorem spdxIssues_filter_keep (code : List Char) :
    (spdxIssues code).filter (fun i => i.title == titleSpdx) = spdxIssues code := by
  unfold spdxIssues
  split <;> simp [List.filter_cons, List.filter_nil]

theorem floatingPragmaIssues_filter_drop (code M : List Char)
    (h : (titleFloating == M) = false) :
    (floatingPragmaIssues code).filter (fun i => i.title == M) = [] := by
  unfold floatingPragmaIssues
  cases hc : pragmaCapture code <;>
    simp only [hc] <;> (try split) <;> simp [List.filter_cons, List.filter_nil, h]

theorem auditPerLine_filter_drop (code M : List Char)
    (h1 : (titleTxOrigin == M) = false) (h2 : (titleTimestamp == M) = false)
    (h3 : (titleUnchecked == M) = false) (h4 : (titleOverflow == M) = false) :
    (catMap (fun p => auditLineChecks p.1 p.2) (linesEnum 1 (splitNL code))).filter
      (fun i => i.title == M) = [] := by
  rw [filter_catMap]
  exact catMap_eq_nil fun p _ => auditLineChecks_filter_drop p.1 p.2 M h1 h2 h3 h4

/-- Claim C3 (amended): in the audit panel the missing-SPDX rule is
document-level — for non-blank input it fires exactly once iff the literal
`SPDX-License-Identifier` appears nowhere in the text — but in the syntax
analyzer it fires exactly once iff the first line does not contain the
literal, so a document carrying the literal only on a later line still
receives the finding there. -/
theorem c3_spdx_rule (code : List Char) :
    ((analyzeSyntax code).filter (fun f => f.message == msgSpdx)).length =
      (if isSubstr (S "SPDX-License-Identifier") (splitNL code).headI
        then 0 else 1) ∧
    (jsTrim code ≠ [] →
      ((analyzeContract code).filter (fun i => i.title == titleSpdx)).length =
        (if isSubstr (S "SPDX-License-Identifier") code then 0 else 1)) := by
  constructor
  · cases hsp : splitNL code with
    | nil => exact absurd hsp (splitNL_ne_nil code)
    | cons l0 rest =>
      unfold analyzeSyntax
      rw [hsp, linesEnum, catMap, List.filter_append, syntaxLineChecks_filter_spdx,
        spdx_filter_tail_empty rest 2 (by omega), List.append_nil]
      have heq := isSubstr_jsTrim (S "SPDX-License-Identifier") l0 (by decide) (by decide)
      cases hsub : isSubstr (S "SPDX-License-Identifier") (jsTrim l0) <;>
        · rw [heq] at hsub
          simp [spdxCheck, hsub, isSubstr_jsTrim (S "SPDX-License-Identifier") l0
            (by decide) (by decide)]
  · intro htrim
    have hne : code ≠ [] := fun e => htrim (by rw [e]; rfl)
    have h1 : code.isEmpty = false := by simp [List.isEmpty_iff, hne]
    have h2 : (jsTrim code).isEmpty = false := by simp [List.isEmpty_iff, htrim]
    unfold analyzeContract
    rw [h1, h2]
    simp only [Bool.or_self, Bool.false_eq_true, if_false]
    rw [List.filter_append, List.filter_append, List.filter_append, List.filter_append,
      List.filter_append, accessControlIssues_filter_drop _ _ (by decide),
      reentrancyIssues_filter_drop _ _ (by decide), eventsIssues_filter_drop _ _ (by decide),
      auditPerLine_filter_drop _ _ (by decide) (by decide) (by decide) (by decide),
      floatingPragmaIssues_filter_drop _ _ (by decide), spdxIssues_filter_keep]
    cases hsub : isSubstr (S "SPDX-License-Identifier") code <;> simp [spdxIssues, hsub]

/-- Counterexample to claim C3 as stated: the literal appears on line 2 of
`x;\n// SPDX-License-Identifier: MIT`, yet the syntax analyzer still
produces a missing-SPDX finding (it only inspects line 1). -/
theorem c3_counterexample :
    isSubstr (S "SPDX-License-Identifier") (S "x;\n// SPDX-License-Identifier: MIT") = true ∧
    ((analyzeSyntax (S "x;\n// SPDX-License-Identifier: MIT")).filter
      (fun f => f.message == msgSpdx)).length = 1 := by
  decide

/-- Witness for C3 at the input `x`: the audit-panel count at a non-blank
document lacking the literal is 1. -/
theorem c3_witness :
    ((analyzeContract (S "x")).filter (fun i => i.title == titleSpdx)).length = 1 := by
  have h := (c3_spdx_rule (S "x")).2 (by decide)
  rw [h]
  decide

/-! ### C7: the reentrancy rule of the audit panel -/

theorem hasPayableRe_eq_false_of_space (code : List Char)
    (h : ∀ c ∈ code, isJsSpace c = true) : hasPayableRe code = false := by
  induction code with
  | nil => rfl
  | cons c t ih =>
    have hc : isJsSpace c = true := h c (List.mem_cons_self c t)
    have hcf : ('f' == c) = false := by
      rw [beq_eq_false_iff_ne]
      intro he
      rw [← he] at hc
      exact absurd hc (by decide)
    have hp : payableSigAt (c :: t) = false := by
      unfold payableSigAt
      rw [show S "function" = 'f' :: S "unction" from rfl]
      simp [isPfx, hcf]
    unfold hasPayableRe at *
    unfold scanHas
    rw [hp, ih fun x hx => h x (List.mem_cons_of_mem c hx)]
    rfl

/-- Claim C7: for every document, the audit analysis produces a reentrancy
finding exactly when the payable-function-signature pattern matches and
neither guard pattern occurs, and then it produces exactly one such finding,
regardless of how many payable functions the document contains. -/
theorem c7_reentrancy_rule (code : List Char) :
    ((analyzeContract code).filter (fun i => i.title == titleReentrancy)).length =
      if hasPayableRe code && !hasGuardRe code then 1 else 0 := by
  cases hg : (code.isEmpty || (jsTrim code).isEmpty) with
  | true =>
    have hsp : ∀ c ∈ code, isJsSpace c = true := by
      rcases Bool.or_eq_true_iff.1 hg with h | h
      · intro c hc
        rw [List.isEmpty_iff.1 h] at hc
        simp at hc
      · exact jsTrim_eq_nil_all_space code (List.isEmpty_iff.1 h)
    have hp : hasPayableRe code = false := hasPayableRe_eq_false_of_space code hsp
    simp [analyzeContract, hg, hp]
  | false =>
    unfold analyzeContract
    rw [hg]
    simp only [Bool.false_eq_true, if_false]
    rw [List.filter_append, List.filter_append, List.filter_append, List.filter_append,
      List.filter_append, accessControlIssues_filter_drop _ _ (by decide),
      reentrancyIssues_filter_keep, eventsIssues_filter_drop _ _ (by decide),
      auditPerLine_filter_drop _ _ (by decide) (by decide) (by decide) (by decide),
      spdxIssues_filter_drop _ _ (by decide), floatingPragmaIssues_filter_drop _ _ (by decide)]
    unfold reentrancyIssues
    cases hcond : (hasPayableRe code && !hasGuardRe code) <;> simp [hcond]

/-! ### C10: every finding names an existing line -/

theorem syntaxLineChecks_line_eq (n : Nat) (line : List Char) :
    ∀ f ∈ syntaxLineChecks n line, f.line = n := by
  intro f hf
  simp only [syntaxLineChecks, missingSemiCheck, visCheck, nowCheck, txCheck, spdxCheck,
    pragmaCheck, List.mem_append] at hf
  rcases hf with ((((h | h) | h) | h) | h) | h <;>
    · split at h <;> simp_all [Bool.and_eq_true]

theorem gasLineChecks_line_eq (n : Nat) (line : List Char) :
    ∀ g ∈ gasLineChecks n line, g.line = n ∧ g.currentCode = line := by
  intro g hg
  simp only [gasLineChecks, List.mem_append] at hg
  rcases hg with ((((((h | h) | h) | h) | h) | h) | h) | h <;>
    · split at h <;> (try split at h) <;> simp_all

/-- Claim C10: every finding of the two analyzers names a 1-based line number
within the line range of the analyzed text, every gas finding's
`currentCode` is that line verbatim, and consequently every fix collected
by apply-all-fixes from an analysis of a text is in range for `applyFixes`
on that same text. -/
theorem c10_findings_in_range (code : List Char) :
    (∀ f ∈ analyzeSyntax code, 1 ≤ f.line ∧ f.line ≤ (splitNL code).length) ∧
    (∀ g ∈ analyzeGasOptimization code, 1 ≤ g.line ∧ g.line ≤ (splitNL code).length ∧
      (splitNL code)[g.line - 1]? = some g.currentCode) ∧
    (∀ p ∈ collectAllFixes (analyzeCode code),
      1 ≤ p.line ∧ p.line ≤ ((splitNL code).length : Int)) := by
  have hsyn : ∀ f ∈ analyzeSyntax code, 1 ≤ f.line ∧ f.line ≤ (splitNL code).length := by
    intro f hf
    obtain ⟨a, ha, hfa⟩ := mem_catMap.1 hf
    obtain ⟨h1, h2, _⟩ := mem_linesEnum ha
    have hl := syntaxLineChecks_line_eq a.1 a.2 f hfa
    rw [hl]
    exact ⟨h1, by omega⟩
  have hgas : ∀ g ∈ analyzeGasOptimization code,
      1 ≤ g.line ∧ g.line ≤ (splitNL code).length ∧
        (splitNL code)[g.line - 1]? = some g.currentCode := by
    intro g hg
    obtain ⟨a, ha, hga⟩ := mem_catMap.1 hg
    obtain ⟨h1, h2, h3⟩ := mem_linesEnum ha
    obtain ⟨hl, hc⟩ := gasLineChecks_line_eq a.1 a.2 g hga
    rw [hl, hc]
    exact ⟨h1, by omega, by simpa using h3⟩
  refine ⟨hsyn, hgas, ?_⟩
  intro p hp
  unfold analyzeCode at hp
  split at hp
  · simp [collectAllFixes, catMap] at hp
  · simp only [collectAllFixes, List.mem_append] at hp
    rcases hp with h | h
    · obtain ⟨e, he, hpe⟩ := mem_catMap.1 h
      obtain ⟨h1, h2⟩ := hsyn e he
      cases hfx : e.fix with
      | none => rw [hfx] at hpe; simp at hpe
      | some fx =>
        rw [hfx] at hpe
        simp at hpe
        rw [hpe.2]
        constructor <;> simp <;> omega
    · obtain ⟨g, hgmem, hpg⟩ := List.mem_map.1 h
      obtain ⟨h1, h2, _⟩ := hgas g hgmem
      rw [← hpg]
      constructor <;> simp <;> omega

/-- Witness for C10: the `tx.origin` finding of the one-line document
`tx.origin` is in range. -/
theorem c10_witness :
    1 ≤ (⟨1, 0, msgTxOrigin, Severity.error, some (S "msg.sender")⟩ : SyntaxFinding).line ∧
    (⟨1, 0, msgTxOrigin, Severity.error, some (S "msg.sender")⟩ : SyntaxFinding).line ≤
      (splitNL (S "tx.origin")).length :=
  (c10_findings_in_range (S "tx.origin")).1 _ (by decide)

/-! ### C8: the default variable declaration line of the renderer -/

theorem varLine_default (e : ContractElement) (hn : e.config.name = none)
    (hd : e.config.dataType = none) (hv : e.config.visibility = none) :
    varLine e = S "    uint256 public variable;" ++ ['\n'] := by
  unfold varLine jsOrStr
  rw [hn, hd, hv]
  rfl

theorem varLine_ends_newline (v : ContractElement) : ∃ w, varLine v = w ++ ['\n'] := by
  refine ⟨S "    " ++ jsOrStr v.config.dataType (S "uint256") ++ ' ' ::
    jsOrStr v.config.visibility (S "public") ++ ' ' ::
    jsOrStr v.config.name (S "variable") ++ [';'], ?_⟩
  unfold varLine
  rw [show S ";\n" = [';'] ++ ['\n'] from rfl]
  simp [List.append_assoc]

theorem catMap_varLine_ends (s : List ContractElement) (hs : s ≠ []) :
    ∃ Z, catMap varLine s = Z ++ ['\n'] := by
  induction s with
  | nil => exact absurd rfl hs
  | cons v t ih =>
    cases t with
    | nil =>
      obtain ⟨w, hw⟩ := varLine_ends_newline v
      exact ⟨w, by simp [catMap, hw]⟩
    | cons v2 t2 =>
      obtain ⟨Z, hZ⟩ := ih (by simp)
      refine ⟨varLine v ++ Z, ?_⟩
      show varLine v ++ catMap varLine (v2 :: t2) = varLine v ++ Z ++ ['\n']
      rw [hZ, List.append_assoc]

/-- Claim C8 (amended): for every element of kind `variable` whose config has
none of `dataType`, `visibility`, `name` set, the rendered contract contains
for that element the declaration line `    uint256 public variable;`
(indented by four spaces, as all lines inside the contract body are). -/
theorem c8_variable_default_line (els : List ContractElement) (e : ContractElement)
    (he : e ∈ els) (ht : e.type = ElemKind.varE) (hn : e.config.name = none)
    (hd : e.config.dataType = none) (hv : e.config.visibility = none) :
    S "    uint256 public variable;" ∈ splitNL (generateContract els) := by
  have hef : e ∈ els.filter (fun x => x.type == ElemKind.varE) :=
    List.mem_filter.2 ⟨he, by simp [ht]⟩
  obtain ⟨s, t, hst⟩ := List.append_of_mem hef
  have hgen : ∃ W, generateContract els =
      (contractHeader ++ S "\n    // State Variables\n" ++ catMap varLine s) ++
        (varLine e ++ W) := by
    refine ⟨catMap varLine t ++ sectionEvents els ++ sectionModifiers els ++ sectionCtor els ++
      sectionFunctions els ++ sectionStructs els ++ sectionEnums els ++ sectionMappings els ++
      S "\x7d\n", ?_⟩
    simp only [generateContract, sectionVars]
    rw [hst, show ((s ++ e :: t).isEmpty) = false from by cases s <;> rfl, catMap_append]
    simp [catMap, List.append_assoc]
  obtain ⟨W, hW⟩ := hgen
  obtain ⟨X, hX⟩ : ∃ X, contractHeader ++ S "\n    // State Variables\n" ++ catMap varLine s =
      X ++ ['\n'] := by
    cases hs : s with
    | nil =>
      refine ⟨contractHeader ++ S "\n    // State Variables", ?_⟩
      rw [show (S "\n    // State Variables\n") =
        S "\n    // State Variables" ++ ['\n'] from rfl]
      simp [catMap, List.append_assoc]
    | cons v t' =>
      obtain ⟨Z, hZ⟩ := catMap_varLine_ends (v :: t') (by simp)
      exact ⟨contractHeader ++ S "\n    // State Variables\n" ++ Z,
        by rw [hZ]; simp [List.append_assoc]⟩
  rw [hW, hX, varLine_default e hn hd hv]
  have hassoc : (X ++ ['\n']) ++ ((S "    uint256 public variable;" ++ ['\n']) ++ W) =
      X ++ '\n' :: (S "    uint256 public variable;" ++ '\n' :: W) := by
    simp [List.append_assoc]
  rw [hassoc, splitNL_append, splitNL_append,
    splitNL_no_newline (S "    uint256 public variable;") (by decide)]
  simp

/-- Counterexample to claim C8 as stated: the rendered declaration line for a
bare variable element is not exactly `uint256 public variable;` — no line of
the output equals that string (the emitted line carries a four-space
indent). -/
theorem c8_counterexample :
    (⟨S "v", ElemKind.varE, 0, 0, {}⟩ : ContractElement).type = ElemKind.varE ∧
    (⟨S "v", ElemKind.varE, 0, 0, {}⟩ : ContractElement).config.name = none ∧
    (⟨S "v", ElemKind.varE, 0, 0, {}⟩ : ContractElement).config.dataType = none ∧
    (⟨S "v", ElemKind.varE, 0, 0, {}⟩ : ContractElement).config.visibility = none ∧
    S "uint256 public variable;" ∉
      splitNL (generateContract [⟨S "v", ElemKind.varE, 0, 0, {}⟩]) := by
  refine ⟨rfl, rfl, rfl, rfl, ?_⟩
  decide

/-- Witness for C8 at a one-element list: the indented default declaration
line is rendered. -/
theorem c8_witness :
    S "    uint256 public variable;" ∈
      splitNL (generateContract [⟨S "v", ElemKind.varE, 0, 0, {}⟩]) :=
  c8_variable_default_line _ _ (List.mem_singleton.2 rfl) rfl rfl rfl rfl

/-- Witness for C9: a `.txt` file is rejected with the state unchanged, and a
`.sol` file's text is imported verbatim. -/
theorem c9_witness :
    handleFileChange ⟨[], S "old", false⟩ (some ⟨S "a.txt", some (S "T")⟩) =
        (⟨[], S "old", false⟩, ImportOutcome.rejectedExtension) ∧
      (handleFileChange ⟨[], S "old", false⟩ (some ⟨S "a.sol", some (S "T")⟩)).1.generatedCode =
        S "T" := by
  constructor
  · exact (c9_import_extension_gate ⟨[], S "old", false⟩ ⟨S "a.txt", some (S "T")⟩).1 (by decide)
  · exact ((c9_import_extension_gate ⟨[], S "old", false⟩ ⟨S "a.sol", some (S "T")⟩).2.1
      (S "T") (by decide) rfl).1

end SCC
